import Mathlib

/-!
Verification of the colosseum-breakout-dashboard search/filter/sort engine,
record validator, debounce controller and trend aggregator.

Shallow embedding conventions:
* JavaScript dynamic values are modelled by the inductive `JVal`.
  JS numbers are modelled as `Int`; `NaN` produced by numeric coercion of
  non-numeric values is modelled as `none` in `Option Int` where the code
  can produce it (numeric-string coercion such as `Number("12")` is not
  modelled; no claim depends on it).
* `Date` parsing and `new URL` parsing are external platform services;
  they are passed in as oracles `pd : String → Option String`
  (returning the ISO string of a successfully parsed date) and
  `pu : String → Option String` (returning the protocol of a successfully
  parsed URL), with `none` standing for an invalid date / a thrown
  `TypeError` respectively.
* A JS exception caught by a surrounding `try/catch` is modelled by
  `Option`/`none` propagation.
* `Array.prototype.sort` with the comparators used by the code is embedded
  as `List.insertionSort` with the relation `cmp a b ≤ 0`; for a consistent
  comparator this is exactly the stable sorted permutation ECMAScript
  guarantees.  The non-text sort comparator never returns `0`, so tie order
  there is engine-defined; the embedding uses the stable order, which is
  one admissible outcome, and the claims proved about that stage
  (sortedness, permutation) hold for every admissible outcome.
-/

/-- A JavaScript runtime value (document model for untyped API payloads). -/
inductive JVal where
  | undefined
  | null
  | bool (b : Bool)
  | num (n : Int)
  | str (s : String)
  | arr (elems : List JVal)
  | obj (fields : List (String × JVal))

/-- JS truthiness.  `undefined`, `null`, `false`, `0`, `""` are falsy;
objects and arrays (even empty) are truthy. -/
def truthy : JVal → Bool
  | .undefined => false
  | .null => false
  | .bool b => b
  | .num n => n != 0
  | .str s => s != ""
  | .arr _ => true
  | .obj _ => true

/-- Property access `v[k]`: `undefined` unless `v` is an object with the key. -/
def getF : JVal → String → JVal
  | .obj fields, k =>
    match fields.find? (fun p => p.1 == k) with
    | some p => p.2
    | none => .undefined
  | _, _ => .undefined

/-- `typeof v === 'object'` (true for plain objects, arrays and `null`). -/
def isObjectType : JVal → Bool
  | .null => true
  | .arr _ => true
  | .obj _ => true
  | _ => false

def isNum : JVal → Bool
  | .num _ => true
  | _ => false

def isStr : JVal → Bool
  | .str _ => true
  | _ => false

def isArr : JVal → Bool
  | .arr _ => true
  | _ => false

def asNum : JVal → Int
  | .num n => n
  | _ => 0

def asStr : JVal → String
  | .str s => s
  | _ => ""

/-- JS `ToNumber` coercion restricted to the cases the claims exercise.
Strings, arrays and plain objects coerce to `none` (standing for `NaN`;
numeric strings and singleton arrays, which JS would parse, are not
modelled — no claim depends on them). -/
def toNumberJS : JVal → Option Int
  | .num n => some n
  | .bool b => some (if b then 1 else 0)
  | .null => some 0
  | _ => none

/-- `x || 0` followed by `Math.floor` coercion: the value if truthy, else `0`. -/
def orZeroNum (v : JVal) : Option Int :=
  if truthy v then toNumberJS v else some 0

/-- `Math.max(0, ·)`; `Math.max(0, NaN)` is `NaN`. -/
def max0Opt (x : Option Int) : Option Int :=
  x.map (fun n => max 0 n)

/-- JS `.length` of a value: defined for arrays and strings, `undefined`
(`none`) otherwise. -/
def jsLen : JVal → Option Nat
  | .arr xs => some xs.length
  | .str s => some s.length
  | _ => none

/-- `x || 0` on an already-computed JS number (`NaN`, i.e. `none`, is falsy). -/
def jsOrZero (x : Option Int) : Int :=
  x.getD 0

/-! ### Character/string helpers (kernel-reducible replacements for the
platform string methods the code calls). -/

/-- `String.toLowerCase()`. -/
def jsToLower (s : String) : String :=
  String.mk (s.toList.map Char.toLower)

/-- `String.trim()`. -/
def jsTrim (s : String) : String :=
  String.mk (((s.toList.dropWhile Char.isWhitespace).reverse.dropWhile
    Char.isWhitespace).reverse)

/-- One left-to-right, non-overlapping, case-insensitive removal pass of the
pattern `p :: ps` (as produced by `.replace(/pat/gi, '')`).  Fuel-structured
so that it reduces in the kernel; callers pass `l.length` as fuel, which is
always sufficient since the pattern is nonempty. -/
def removeCIAux (p : Char) (ps : List Char) : Nat → List Char → List Char
  | _, [] => []
  | 0, l => l
  | fuel + 1, c :: rest =>
    if ((c :: rest).take (ps.length + 1)).map Char.toLower = p :: ps then
      removeCIAux p ps fuel (rest.drop ps.length)
    else
      c :: removeCIAux p ps fuel rest

/-- `.replace(/pat/gi, '')` for a fixed nonempty lowercase pattern. -/
def removeCI (p : Char) (ps : List Char) (l : List Char) : List Char :=
  removeCIAux p ps l.length l

/-- `sanitizeString` applied to a value already known to be a truthy string:
strip `<`/`>`, strip `javascript:` and `data:` case-insensitively, cap at
1000 units, trim. -/
def sanitizeCore (s : String) : String :=
  jsTrim (String.mk
    ((removeCI 'd' ['a', 't', 'a', ':']
      (removeCI 'j' ['a', 'v', 'a', 's', 'c', 'r', 'i', 'p', 't', ':']
        (s.toList.filter (fun c => c ≠ '<' ∧ c ≠ '>')))).take 1000))

/-- `sanitizeString(input)` on an arbitrary runtime value.  Falsy input
yields `''`; a truthy string is sanitized; a truthy non-string makes
`input.replace` throw a `TypeError`, modelled as `none`. -/
def sanitizeStringE (v : JVal) : Option String :=
  if truthy v then
    match v with
    | .str s => some (sanitizeCore s)
    | _ => none
  else
    some ""

/-! ### Validated data model (types/project.ts) -/

/-- A validated team member (validateTeamMembers output shape).
`id` is `Option Int` because `Math.max(0, Math.floor(member.id || 0))`
yields `NaN` for truthy non-numeric ids. -/
structure TeamMember where
  id : Option Int
  username : String
  aboutYou : String
  displayName : String
  avatarUrl : String
  isEditor : Bool

/-- A validated project image (validateImage output shape). -/
structure ProjImage where
  id : Option Int
  name : String
  url : String
  mimetype : String
  size : Option Int
  uid : String

/-- A validated project record.  Numeric fields that the validator computes
with `Math.max(0, Math.floor(x || 0))` are `Option Int` (`none` = `NaN`);
`teamSize` is `Option Nat` because `data.teamMembers.length` is `undefined`
for truthy non-array, non-string values. -/
structure Project where
  id : Int
  name : String
  slug : String
  description : String
  repoLink : String
  country : String
  presentationLink : String
  technicalDemoLink : String
  twitterHandle : String
  additionalInfo : String
  ownerId : Option Int
  submittedAt : String
  hackathonId : Option Int
  isUniversityProject : Bool
  universityName : String
  teamSize : Option Nat
  teamMembers : List TeamMember
  likes : Option Int
  comments : Option Int
  image : ProjImage
  tracks : List String
  prize : JVal
  randomOrder : String

/-! ### Record validator (validateProject and helpers) -/

/-- `validateUrl(url)`: empty string unless the input is a truthy string
whose sanitized form parses as a URL (`pu` oracle) with an http(s)
protocol.  Never throws. -/
def validateUrl (pu : String → Option String) (v : JVal) : String :=
  if truthy v ∧ isStr v then
    match pu (sanitizeCore (asStr v)) with
    | some protocol =>
      if protocol = "http:" ∨ protocol = "https:" then
        sanitizeCore (asStr v)
      else ""
    | none => ""
  else ""

/-- `sanitizeTwitterHandle(handle)`.  The leading-`@` strip is kept for
fidelity although the preceding character filter already removed `@`. -/
def sanitizeTwitterHandle (v : JVal) : String :=
  if truthy v ∧ isStr v then
    jsTrim (String.mk ((((asStr v).toList.filter
      (fun c => c.isAlphanum ∨ c = '_')).dropWhile (· = '@')).take 15))
  else ""

/-- `validateDate(dateStr)`: `now` unless the input is a truthy string the
`pd` oracle parses, in which case its ISO form. -/
def validateDate (pd : String → Option String) (now : String) (v : JVal) :
    String :=
  if truthy v ∧ isStr v then
    match pd (asStr v) with
    | some iso => iso
    | none => now
  else now

/-- The `.map` body of `validateTeamMembers`; `none` when one of the
`sanitizeString` calls throws on a truthy non-string field. -/
def buildMember (pu : String → Option String) (m : JVal) :
    Option TeamMember := do
  let username ← sanitizeStringE (getF m "username")
  let aboutYou ← sanitizeStringE (getF m "aboutYou")
  let displayName ← sanitizeStringE (getF m "displayName")
  pure
    { id := max0Opt (orZeroNum (getF m "id"))
      username := username
      aboutYou := aboutYou
      displayName := displayName
      avatarUrl := validateUrl pu (getF m "avatarUrl")
      isEditor := truthy (getF m "isEditor") }

/-- `validateTeamMembers(members)`: `[]` for non-arrays; otherwise filter to
truthy object-like entries, map (which may throw), then `.slice(0, 20)`.
The map runs on every filtered entry before the slice, so a bad entry
past position 20 still throws. -/
def validateTeamMembers (pu : String → Option String) (v : JVal) :
    Option (List TeamMember) :=
  match v with
  | .arr ms => do
    let mapped ← (ms.filter (fun m => truthy m ∧ isObjectType m)).mapM
      (buildMember pu)
    pure (mapped.take 20)
  | _ => some []

/-- `validateTracks(tracks)`: `[]` for non-arrays; keep truthy strings,
sanitize, drop empties, cap at 10.  Never throws. -/
def validateTracks (v : JVal) : List String :=
  match v with
  | .arr ts =>
    ((((ts.filter (fun t => truthy t ∧ isStr t)).map
      (fun t => sanitizeCore (asStr t))).filter (fun t => t ≠ "")).take 10)
  | _ => []

/-- The default image substituted for falsy / non-object inputs. -/
def defaultImage : ProjImage :=
  { id := some 0, name := "", url := "", mimetype := "", size := some 0
    uid := "" }

/-- `validateImage(image)`; `none` when a `sanitizeString` call throws. -/
def validateImage (pu : String → Option String) (v : JVal) :
    Option ProjImage :=
  if truthy v ∧ isObjectType v then do
    let name ← sanitizeStringE (getF v "name")
    let mimetype ← sanitizeStringE (getF v "mimetype")
    let uid ← sanitizeStringE (getF v "uid")
    pure
      { id := max0Opt (orZeroNum (getF v "id"))
        name := name
        url := validateUrl pu (getF v "url")
        mimetype := mimetype
        size := max0Opt (orZeroNum (getF v "size"))
        uid := uid }
  else some defaultImage

/-- `validateProject(data)`.  The three leading guards return `null`;
afterwards any `sanitizeString` throw on a truthy non-string field is
caught by the surrounding `try/catch` and also becomes `null` (modelled by
`Option` propagation; the order of the binds does not affect the
`none`/`some` outcome). -/
def validateProject (pd pu : String → Option String) (now : String)
    (data : JVal) : Option Project :=
  if truthy data ∧ isObjectType data then
    if truthy (getF data "id") ∧ isNum (getF data "id") then
      if truthy (getF data "name") ∧ isStr (getF data "name") then do
        let name ← sanitizeStringE (getF data "name")
        let slugS ← sanitizeStringE (getF data "slug")
        let description ← sanitizeStringE (getF data "description")
        let country ← sanitizeStringE (getF data "country")
        let additionalInfo ← sanitizeStringE (getF data "additionalInfo")
        let universityName ← sanitizeStringE (getF data "universityName")
        let randomOrderS ← sanitizeStringE (getF data "randomOrder")
        let teamMembers ← validateTeamMembers pu (getF data "teamMembers")
        let image ← validateImage pu (getF data "image")
        pure
          { id := max 0 (asNum (getF data "id"))
            name := name
            slug :=
              if slugS = "" then
                "project-" ++ toString (asNum (getF data "id"))
              else slugS
            description := description
            repoLink := validateUrl pu (getF data "repoLink")
            country := country
            presentationLink := validateUrl pu (getF data "presentationLink")
            technicalDemoLink :=
              validateUrl pu (getF data "technicalDemoLink")
            twitterHandle := sanitizeTwitterHandle (getF data "twitterHandle")
            additionalInfo := additionalInfo
            ownerId := max0Opt (orZeroNum (getF data "ownerId"))
            submittedAt := validateDate pd now (getF data "submittedAt")
            hackathonId := max0Opt (orZeroNum (getF data "hackathonId"))
            isUniversityProject := truthy (getF data "isUniversityProject")
            universityName := universityName
            teamSize :=
              if truthy (getF data "teamMembers") then
                jsLen (getF data "teamMembers")
              else some 1
            teamMembers := teamMembers
            likes := max0Opt (orZeroNum (getF data "likes"))
            comments := max0Opt (orZeroNum (getF data "comments"))
            image := image
            tracks := validateTracks (getF data "tracks")
            prize :=
              if truthy (getF data "prize") then getF data "prize"
              else JVal.null
            randomOrder := if randomOrderS = "" then "0" else randomOrderS }
      else none
    else none
  else none

/-- `validateProjects(data)`: `[]` for non-arrays; otherwise drop entries
`validateProject` rejects.  Total by construction (the source wraps each
record in `try/catch`). -/
def validateProjects (pd pu : String → Option String) (now : String)
    (v : JVal) : List Project :=
  match v with
  | .arr items =>
    items.foldr
      (fun item acc =>
        match validateProject pd pu now item with
        | some p => p :: acc
        | none => acc) []
  | _ => []

/-! ### Search/filter/sort engine (hooks/useSearch.ts) -/

/-- The filter specification (`FilterOptions`).  `sortBy`/`sortOrder` are
strings because the URL-initialisation path casts arbitrary query
parameters into them. -/
structure FilterOptions where
  search : String
  tracks : List String
  countries : List String
  teamSizeRange : Int × Int
  likesRange : Int × Int
  sortBy : String
  sortOrder : String
deriving DecidableEq

/-- `DEFAULT_FILTERS`. -/
def defaultFilters : FilterOptions :=
  { search := "", tracks := [], countries := [], teamSizeRange := (1, 50)
    likesRange := (0, 100), sortBy := "likes", sortOrder := "desc" }

/-- One precomputed search-index entry. -/
structure IndexEntry where
  id : Int
  searchableText : String
  normalizedName : String
  normalizedDescription : String
  normalizedCountry : String
  normalizedTracks : List String
  teamSize : Int
  project : Project

/-- `project.teamMembers?.length || 1`. -/
def jsTeamSize (p : Project) : Int :=
  if p.teamMembers.length = 0 then 1 else (p.teamMembers.length : Int)

/-- The search-index construction (the `useMemo` over `projects`). -/
def buildIndex (projects : List Project) : List IndexEntry :=
  projects.map fun p =>
    { id := p.id
      searchableText := jsTrim (jsToLower (p.name ++ " " ++ p.description))
      normalizedName := jsToLower p.name
      normalizedDescription := jsToLower p.description
      normalizedCountry := jsToLower p.country
      normalizedTracks := p.tracks.map jsToLower
      teamSize := jsTeamSize p
      project := p }

/-- Contiguous-subsequence check underlying `String.prototype.includes`. -/
def infixCheck (needle : List Char) : List Char → Bool
  | [] => needle.isEmpty
  | c :: rest => needle.isPrefixOf (c :: rest) || infixCheck needle rest

/-- `hay.includes(needle)`. -/
def jsIncludes (hay needle : String) : Bool :=
  infixCheck needle.toList hay.toList

/-- `searchTerm.split(/\s+/)` (split at each whitespace character, then
`filter(Boolean)` drops the empty pieces, which is the same partition). -/
def wsSplit : List Char → List Char → List String
  | [], acc => [String.mk acc.reverse]
  | c :: cs, acc =>
    if c.isWhitespace then String.mk acc.reverse :: wsSplit cs []
    else wsSplit cs (c :: acc)

def queryTermsOf (s : String) : List String :=
  (wsSplit s.toList []).filter (fun t => t ≠ "")

/-- The relevance score the filter callback computes for one entry
(`score`/`matchCount` accumulation flattened into its if-chain: name
substring → 100, else description substring → 80, else first matching
whitespace-split term → 30, else 0). -/
def computeScore (searchTerm : String) (queryTerms : List String)
    (e : IndexEntry) : Nat :=
  if jsIncludes e.normalizedName searchTerm then 100
  else if jsIncludes e.normalizedDescription searchTerm then 80
  else if queryTerms.any (fun t => jsIncludes e.searchableText t) then 30
  else 0

/-- JS `Map.set` on an association list: replace in place or append. -/
def mapSet : List (Int × Nat) → Int → Nat → List (Int × Nat)
  | [], k, v => [(k, v)]
  | p :: ps, k, v =>
    if p.1 = k then (k, v) :: ps else p :: mapSet ps k v

/-- `scores.get(id) || 0`. -/
def mapGet0 : List (Int × Nat) → Int → Nat
  | [], _ => 0
  | p :: ps, k => if p.1 = k then p.2 else mapGet0 ps k

/-- The `filtered.filter(...)` pass of the text-search stage: returns the
kept entries (in order) together with the `scores` map it populated. -/
def scorePassAux (st : String) (qt : List String) :
    List IndexEntry → List (Int × Nat) → List IndexEntry × List (Int × Nat)
  | [], m => ([], m)
  | e :: es, m =>
    let sc := computeScore st qt e
    if 0 < sc then
      let r := scorePassAux st qt es (mapSet m e.id sc)
      (e :: r.1, r.2)
    else scorePassAux st qt es m

/-- The text-search stage of `performSearch` (lines 92–133): active only
for a truthy search of length ≥ 2; scores, filters, then stable-sorts by
`(scores.get(b.id) || 0) - (scores.get(a.id) || 0)` descending. -/
def textStage (f : FilterOptions) (l : List IndexEntry) : List IndexEntry :=
  if f.search ≠ "" ∧ 2 ≤ f.search.length then
    let st := jsToLower f.search
    let qt := queryTermsOf st
    let r := scorePassAux st qt l []
    r.1.insertionSort (fun a b => mapGet0 r.2 b.id ≤ mapGet0 r.2 a.id)
  else l

/-- Track filter (OR semantics over the lowercased requested tracks). -/
def trackStage (f : FilterOptions) (l : List IndexEntry) : List IndexEntry :=
  if f.tracks ≠ [] then
    l.filter (fun item =>
      item.normalizedTracks.any (fun t => (f.tracks.map jsToLower).contains t))
  else l

/-- Country filter (exact match against the lowercased requested set). -/
def countryStage (f : FilterOptions) (l : List IndexEntry) :
    List IndexEntry :=
  if f.countries ≠ [] then
    l.filter (fun item =>
      (f.countries.map jsToLower).contains item.normalizedCountry)
  else l

/-- Team-size filter; skipped whenever `min ≤ 1 && max ≥ 50`. -/
def teamSizeStage (f : FilterOptions) (l : List IndexEntry) :
    List IndexEntry :=
  if 1 < f.teamSizeRange.1 ∨ f.teamSizeRange.2 < 50 then
    l.filter (fun item =>
      f.teamSizeRange.1 ≤ item.teamSize ∧ item.teamSize ≤ f.teamSizeRange.2)
  else l

/-- Likes filter; skipped whenever `min ≤ 0 && max ≥ 100`. -/
def likesStage (f : FilterOptions) (l : List IndexEntry) : List IndexEntry :=
  if 0 < f.likesRange.1 ∨ f.likesRange.2 < 100 then
    l.filter (fun item =>
      f.likesRange.1 ≤ jsOrZero item.project.likes ∧
        jsOrZero item.project.likes ≤ f.likesRange.2)
  else l

/-- `aValue ≤ bValue` for the `switch (currentFilters.sortBy)` comparator.
The `switch` has no `teamSize` case, so `teamSize` (and every other
unlisted value) takes the `default` branch and compares likes. -/
def sortLEb (f : FilterOptions) (a b : IndexEntry) : Bool :=
  if f.sortBy = "likes" then
    jsOrZero a.project.likes ≤ jsOrZero b.project.likes
  else if f.sortBy = "comments" then
    jsOrZero a.project.comments ≤ jsOrZero b.project.comments
  else if f.sortBy = "name" then a.project.name ≤ b.project.name
  else if f.sortBy = "country" then a.project.country ≤ b.project.country
  else jsOrZero a.project.likes ≤ jsOrZero b.project.likes

/-- `cmp(a,b) ≤ 0` for the final-sort comparator
(`sortOrder === 'asc' ? (aValue > bValue ? 1 : -1) : (aValue < bValue ? 1 : -1)`). -/
def cmpLEb (f : FilterOptions) (a b : IndexEntry) : Bool :=
  if f.sortOrder = "asc" then sortLEb f a b else sortLEb f b a

/-- The final sort (lines 166–197): runs only when no text search is
active.  The comparator never returns `0`, so it is a total preorder with
engine-defined tie order; the stable order is the admissible outcome
embedded here. -/
def finalSortStage (f : FilterOptions) (l : List IndexEntry) :
    List IndexEntry :=
  if f.search = "" ∨ f.search.length < 2 then
    l.insertionSort (fun a b => cmpLEb f a b)
  else l

/-- The four non-text filters in source order. -/
def filtersChain (f : FilterOptions) (l : List IndexEntry) :
    List IndexEntry :=
  likesStage f (teamSizeStage f (countryStage f (trackStage f l)))

/-- The full cache-miss computation of `performSearch` (the part between
the cache lookup and the cache insert), ending in the `.map(item =>
item.project)` projection. -/
def computeResults (idx : List IndexEntry) (f : FilterOptions) :
    List Project :=
  (finalSortStage f (filtersChain f (textStage f idx))).map
    (fun e => e.project)

/-- The engine's mutable state: the memoised index and the result cache
(a JS `Map` in insertion order, modelled as an association list with new
keys appended at the tail). -/
structure EngineState where
  index : List IndexEntry
  cache : List (FilterOptions × List Project)

/-- `cacheRef.current.has/get` on the serialized filter spec.  Structural
equality of `FilterOptions` stands for equality of `JSON.stringify`
serializations (the spec objects are always built with the same key
order). -/
def cacheLookup (cache : List (FilterOptions × List Project))
    (f : FilterOptions) : Option (FilterOptions × List Project) :=
  cache.find? (fun p => decide (p.1 = f))

/-- `performSearch(currentFilters)` with the cache state passed
explicitly: cache hit returns the stored list unchanged; otherwise the
result is computed, the oldest-inserted entry is deleted when the map
already holds ≥ 20 entries, and the result is stored. -/
def performSearch (f : FilterOptions) (s : EngineState) :
    List Project × EngineState :=
  match cacheLookup s.cache f with
  | some p => (p.2, s)
  | none =>
    let results := computeResults s.index f
    let evicted := if 20 ≤ s.cache.length then s.cache.drop 1 else s.cache
    (results, { index := s.index, cache := evicted ++ [(f, results)] })

/-- A sequence of `performSearch` calls threading the engine state. -/
def runSearches (s : EngineState) (fs : List FilterOptions) : EngineState :=
  fs.foldl (fun s f => (performSearch f s).2) s

/-! ### Debounce controller (the `useEffect` at lines 214–250) -/

/-- The adaptive delay selected when the filter spec changes from
`prev`-search to `next`-search. -/
def selectDelay (prev next : String) : Nat :=
  if next ≠ prev then
    if next.length = 0 then 100
    else if next.length ≤ 2 then 600
    else if next.length ≤ 5 then 500
    else 400
  else 200

/-- The fixed, independently debounced URL-sync delay. -/
def urlSyncDelay : Nat := 800

/-! ### Trend aggregator (getProjectTrends in the standalone script) -/

/-- A row of the `projects` table as selected by the trend query. -/
structure DbProject where
  id : Int
  name : String
  slug : String
  tracks : Option String
  country : String

/-- A row of the `project_metrics` table.  `recorded_at` is stored as an
ISO-8601 string whose lexicographic order is chronological; it is modelled
as an integer timestamp. -/
structure MetricRow where
  project_id : Int
  likes : Int
  comments : Int
  recorded_at : Int

/-- The tables the trend query reads. -/
structure TrendDb where
  projects : List DbProject
  metrics : List MetricRow

/-- One row of the trend query result (plus the per-project history the
code attaches afterwards for sparklines). -/
structure TrendRow where
  id : Int
  name : String
  slug : String
  tracks : Option String
  country : String
  current_likes : Int
  current_comments : Int
  start_likes : Int
  start_comments : Int
  likes_change : Int
  comments_change : Int
  latest_time : Int
  earliest_time : Int
  history : List MetricRow
deriving Inhabited

/-- The `switch (period)` lookback mapping, in hours. -/
def periodHours : String → Nat
  | "1h" => 1
  | "24h" => 24
  | "7d" => 24 * 7
  | "30d" => 24 * 30
  | "all" => 24 * 365
  | _ => 1

/-- The row with `ROW_NUMBER() ... ORDER BY recorded_at DESC = 1`.  SQL
leaves the choice among equal timestamps unspecified; the embedding picks
the first-listed row among the maxima. -/
def latestRow : List MetricRow → Option MetricRow
  | rows =>
    rows.foldl
      (fun acc r =>
        match acc with
        | none => some r
        | some b => if b.recorded_at < r.recorded_at then some r else some b)
      none

/-- The row with `ROW_NUMBER() ... ORDER BY recorded_at ASC = 1`. -/
def earliestRow : List MetricRow → Option MetricRow
  | rows =>
    rows.foldl
      (fun acc r =>
        match acc with
        | none => some r
        | some b => if r.recorded_at < b.recorded_at then some r else some b)
      none

/-- The metric rows of one project inside the lookback window. -/
def windowRows (db : TrendDb) (threshold pid : Int) : List MetricRow :=
  (db.metrics.filter (fun m => threshold ≤ m.recorded_at)).filter
    (fun m => m.project_id = pid)

/-- `ORDER BY likes_change DESC, comments_change DESC, l.likes DESC` as a
total preorder (`a` may precede `b`). -/
def trendLEb (a b : TrendRow) : Bool :=
  if b.likes_change < a.likes_change then true
  else if a.likes_change < b.likes_change then false
  else if b.comments_change < a.comments_change then true
  else if a.comments_change < b.comments_change then false
  else b.current_likes ≤ a.current_likes

/-- `recorded_at ASC` for the history query. -/
def histLEb (a b : MetricRow) : Bool :=
  a.recorded_at ≤ b.recorded_at

/-- The successful trend query: per project, the earliest/latest snapshot
within the window, the deltas, the `WHERE` exclusion, the three-key
descending order, the `LIMIT`, and the attached ascending history. -/
def trendQuery (db : TrendDb) (period : String) (limit : Nat) (now : Int) :
    List TrendRow :=
  let threshold := now - (periodHours period : Int) * (60 * 60 * 1000)
  let rows := db.projects.filterMap fun p =>
    let pr := windowRows db threshold p.id
    match latestRow pr, earliestRow pr with
    | some l, some e =>
      if 0 < l.likes - e.likes ∨ 0 < l.comments - e.comments then
        some
          { id := p.id, name := p.name, slug := p.slug, tracks := p.tracks
            country := p.country
            current_likes := l.likes, current_comments := l.comments
            start_likes := e.likes, start_comments := e.comments
            likes_change := l.likes - e.likes
            comments_change := l.comments - e.comments
            latest_time := l.recorded_at, earliest_time := e.recorded_at
            history := pr.insertionSort (fun a b => histLEb a b) }
      else none
    | _, _ => none
  (rows.insertionSort (fun a b => trendLEb a b)).take limit

/-- `getProjectTrends(db, period, limit)`: the `try/catch` returns `[]`
when the awaited query rejects (`queryError = some msg`). -/
def getProjectTrends (db : TrendDb) (period : String) (limit : Nat)
    (now : Int) (queryError : Option String) : List TrendRow :=
  match queryError with
  | some _ => []
  | none => trendQuery db period limit now

/-! ### Spec-side ordering relation for the final sort

`claimedOrder` is written from the (amended) specification sentence, not
from the code: likes/comments numerically, name/country as strings,
ascending exactly when `sortOrder = "asc"`, everything else — including
`teamSize`, which the comparator does not wire up — falling back to
likes.  The final-sort theorem compares the engine output against it. -/

def dirLE (f : FilterOptions) (x y : Int) : Prop :=
  if f.sortOrder = "asc" then x ≤ y else y ≤ x

def dirLEs (f : FilterOptions) (x y : String) : Prop :=
  if f.sortOrder = "asc" then x ≤ y else y ≤ x

def claimedOrder (f : FilterOptions) (a b : Project) : Prop :=
  (f.sortBy = "comments" →
    dirLE f (jsOrZero a.comments) (jsOrZero b.comments)) ∧
  (f.sortBy = "name" → dirLEs f a.name b.name) ∧
  (f.sortBy = "country" → dirLEs f a.country b.country) ∧
  (f.sortBy ≠ "comments" → f.sortBy ≠ "name" → f.sortBy ≠ "country" →
    dirLE f (jsOrZero a.likes) (jsOrZero b.likes))

/-! ### Concrete-value helpers used by the closed instances below -/

def blankMember : TeamMember :=
  { id := some 0, username := "", aboutYou := "", displayName := ""
    avatarUrl := "", isEditor := false }

def blankProject : Project :=
  { id := 0, name := "", slug := "", description := "", repoLink := ""
    country := "", presentationLink := "", technicalDemoLink := ""
    twitterHandle := "", additionalInfo := "", ownerId := some 0
    submittedAt := "", hackathonId := some 0, isUniversityProject := false
    universityName := "", teamSize := some 1, teamMembers := []
    likes := some 0, comments := some 0, image := defaultImage, tracks := []
    prize := JVal.null, randomOrder := "0" }

def mkP (id : Int) (name description : String) (likes : Option Int)
    (nMembers : Nat) : Project :=
  { blankProject with
      id := id, name := name, description := description, likes := likes
      teamMembers := List.replicate nMembers blankMember }

/-- The oracle pair standing for an environment in which no date and no
URL parses (sufficient for every closed instance below). -/
def pdNone : String → Option String := fun _ => none

def puNone : String → Option String := fun _ => none


/-! ### Supporting lemmas for the cache -/

theorem performSearch_index_eq (f : FilterOptions) (s : EngineState) :
    ((performSearch f s).2).index = s.index := by
  unfold performSearch
  cases cacheLookup s.cache f <;> rfl

theorem performSearch_cache_len_le (f : FilterOptions) (s : EngineState)
    (h : s.cache.length ≤ 20) : ((performSearch f s).2).cache.length ≤ 20 := by
  unfold performSearch
  cases hc : cacheLookup s.cache f with
  | some p => simpa using h
  | none =>
    simp only [List.length_append, List.length_cons, List.length_nil]
    by_cases h20 : 20 ≤ s.cache.length
    · simp only [if_pos h20, List.length_drop]
      omega
    · simp only [if_neg h20]
      omega

/-- C10: `performSearch` never mutates the search index (the source copies
the index with `[...searchIndex]` before filtering and sorting, and only
ever writes to `cacheRef`); consequently a second call, with any spec,
observes exactly the index contents and order the first call saw. -/
theorem performSearch_no_index_mutation (f1 f2 : FilterOptions)
    (s : EngineState) :
    ((performSearch f1 s).2).index = s.index ∧
    ((performSearch f2 (performSearch f1 s).2).2).index = s.index := by
  refine ⟨performSearch_index_eq f1 s, ?_⟩
  rw [performSearch_index_eq, performSearch_index_eq]

theorem cacheLookup_append_self (cache : List (FilterOptions × List Project))
    (f : FilterOptions) (rs : List Project)
    (h : ∀ p ∈ cache, p.1 ≠ f) :
    cacheLookup (cache ++ [(f, rs)]) f = some (f, rs) := by
  induction cache with
  | nil => simp [cacheLookup]
  | cons q qs ih =>
    have hq : q.1 ≠ f := h q (List.mem_cons_self q qs)
    have ih2 := ih (fun p hp => h p (List.mem_cons_of_mem q hp))
    simp only [cacheLookup, List.cons_append] at ih2 ⊢
    rw [List.find?_cons_of_neg _ (by simpa using hq)]
    exact ih2

/-- C4: searching twice with a structurally identical spec over an
unchanged engine state returns the identical ordered result list, leaves
the state unchanged on the second call, and the value the first call
stored under the spec's key is exactly its result (the second call is a
cache hit). -/
theorem search_idempotent_cached (f : FilterOptions) (s : EngineState) :
    (performSearch f (performSearch f s).2).1 = (performSearch f s).1 ∧
    (performSearch f (performSearch f s).2).2 = (performSearch f s).2 ∧
    (cacheLookup ((performSearch f s).2).cache f).map (fun p => p.2) =
      some ((performSearch f s).1) := by
  cases hc : cacheLookup s.cache f with
  | some p =>
    have h1 : performSearch f s = (p.2, s) := by
      unfold performSearch
      rw [hc]
    rw [h1]
    simp [performSearch, hc]
  | none =>
    have hall : ∀ p ∈ s.cache, p.1 ≠ f := by
      intro p hp
      have := List.find?_eq_none.mp hc p hp
      simpa using this
    set rs := computeResults s.index f with hrs
    set evicted := if 20 ≤ s.cache.length then s.cache.drop 1 else s.cache
      with hev
    have hsub : ∀ p ∈ evicted, p.1 ≠ f := by
      intro p hp
      apply hall
      rw [hev] at hp
      by_cases h20 : 20 ≤ s.cache.length
      · rw [if_pos h20] at hp
        exact List.mem_of_mem_drop hp
      · rwa [if_neg h20] at hp
    have h1 : performSearch f s =
        (rs, { index := s.index, cache := evicted ++ [(f, rs)] }) := by
      unfold performSearch
      rw [hc]
    have hlook : cacheLookup (evicted ++ [(f, rs)]) f = some (f, rs) :=
      cacheLookup_append_self evicted f rs hsub
    rw [h1]
    constructor
    · unfold performSearch
      rw [hlook]
    constructor
    · unfold performSearch
      rw [hlook]
    · rw [hlook]
      rfl

/-- C3: over any sequence of `performSearch` calls the cache never exceeds
its capacity of 20 entries, and whenever an insertion finds the cache
full, the single oldest-inserted key (the head of the insertion-ordered
map) is evicted — strict insertion order, independent of which entries
were recently read. -/
theorem cache_bounded_and_fifo :
    (∀ (s : EngineState) (fs : List FilterOptions), s.cache.length ≤ 20 →
      (runSearches s fs).cache.length ≤ 20) ∧
    (∀ (f : FilterOptions) (s : EngineState),
      cacheLookup s.cache f = none → 20 ≤ s.cache.length →
      ((performSearch f s).2).cache.map (fun p => p.1) =
        (s.cache.map (fun p => p.1)).drop 1 ++ [f]) := by
  constructor
  · intro s fs
    induction fs generalizing s with
    | nil => intro h; simpa [runSearches] using h
    | cons f fs ih =>
      intro h
      have step := performSearch_cache_len_le f s h
      have : runSearches s (f :: fs) = runSearches ((performSearch f s).2) fs := by
        simp [runSearches, List.foldl_cons]
      rw [this]
      exact ih _ step
  · intro f s hmiss h20
    unfold performSearch
    rw [hmiss]
    simp only [if_pos h20, List.map_append, List.map_cons, List.map_nil]
    rw [List.map_drop]

def cache20 : List (FilterOptions × List Project) :=
  (List.range 20).map
    (fun i => ({ defaultFilters with likesRange := ((i : Int) + 1, 100) }, []))

def state20 : EngineState := { index := [], cache := cache20 }

theorem cache_bounded_and_fifo_witness :
    (runSearches { index := [], cache := [] } [defaultFilters]).cache.length
      ≤ 20 ∧
    ((performSearch defaultFilters state20).2).cache.map (fun p => p.1) =
      (state20.cache.map (fun p => p.1)).drop 1 ++ [defaultFilters] :=
  ⟨cache_bounded_and_fifo.1 { index := [], cache := [] } [defaultFilters]
      (by decide),
    cache_bounded_and_fifo.2 defaultFilters state20 rfl (by decide)⟩

/-- C6: the debounce controller selects 100 ms when the search text
changed to the empty string, 600 ms for a change to length 1–2, 500 ms
for length 3–5, 400 ms for length ≥ 6, 200 ms when the search text is
unchanged (any other filter field change), while the URL-sync delay is an
independent fixed 800 ms. -/
theorem debounce_delay_selection (prev next : String) :
    (next ≠ prev →
      (next = "" → selectDelay prev next = 100) ∧
      (1 ≤ next.length → next.length ≤ 2 → selectDelay prev next = 600) ∧
      (3 ≤ next.length → next.length ≤ 5 → selectDelay prev next = 500) ∧
      (6 ≤ next.length → selectDelay prev next = 400)) ∧
    (next = prev → selectDelay prev next = 200) ∧
    urlSyncDelay = 800 := by
  refine ⟨fun hne => ?_, fun he => ?_, rfl⟩
  · have hsel : selectDelay prev next =
        if next.length = 0 then 100
        else if next.length ≤ 2 then 600
        else if next.length ≤ 5 then 500
        else 400 := by
      unfold selectDelay
      rw [if_pos hne]
    refine ⟨?_, ?_, ?_, ?_⟩
    · intro h0
      subst h0
      simpa using hsel
    · intro h1 h2
      rw [hsel, if_neg (by omega), if_pos h2]
    · intro h3 h5
      rw [hsel, if_neg (by omega), if_neg (by omega), if_pos h5]
    · intro h6
      rw [hsel, if_neg (by omega), if_neg (by omega), if_neg (by omega)]
  · unfold selectDelay
    rw [if_neg (by simpa using he)]

theorem debounce_delay_selection_witness :
    selectDelay "react" "" = 100 ∧ selectDelay "" "a" = 600 ∧
    selectDelay "" "react" = 500 ∧ selectDelay "" "solana dapp" = 400 ∧
    selectDelay "abc" "abc" = 200 ∧ urlSyncDelay = 800 :=
  ⟨((debounce_delay_selection "react" "").1 (by decide)).1 rfl,
    ((debounce_delay_selection "" "a").1 (by decide)).2.1 (by decide)
      (by decide),
    ((debounce_delay_selection "" "react").1 (by decide)).2.2.1 (by decide)
      (by decide),
    ((debounce_delay_selection "" "solana dapp").1 (by decide)).2.2.2
      (by decide),
    ((debounce_delay_selection "abc" "abc").2.1 rfl),
    (debounce_delay_selection "x" "x").2.2⟩

/-! ### Lemmas for the trend ordering -/

theorem trendLEb_iff (a b : TrendRow) :
    trendLEb a b = true ↔
      (b.likes_change < a.likes_change ∨
        (a.likes_change = b.likes_change ∧
          (b.comments_change < a.comments_change ∨
            (a.comments_change = b.comments_change ∧
              b.current_likes ≤ a.current_likes)))) := by
  unfold trendLEb
  split_ifs <;> simp <;> omega

theorem trendLEb_total (a b : TrendRow) :
    trendLEb a b = true ∨ trendLEb b a = true := by
  rw [trendLEb_iff, trendLEb_iff]
  omega

theorem trendLEb_trans (a b c : TrendRow) (h1 : trendLEb a b = true)
    (h2 : trendLEb b c = true) : trendLEb a c = true := by
  rw [trendLEb_iff] at h1 h2 ⊢
  omega

def dbW : TrendDb :=
  { projects := [{ id := 1, name := "x", slug := "x", tracks := none
                   country := "c" }]
    metrics := [{ project_id := 1, likes := 5, comments := 0
                  recorded_at := 100 },
                { project_id := 1, likes := 9, comments := 1
                  recorded_at := 200 }] }

/-- C9: the period → lookback mapping is 1/24/168/720/8760 hours; on a
successful query every returned row carries `likesChange`/`commentsChange`
computed as latest-minus-earliest over that project's snapshots inside the
window, rows with both deltas ≤ 0 are excluded, the result is ordered by
`likesChange desc, commentsChange desc, currentLikes desc`, at most
`limit` rows are returned, and a query error yields `[]` instead of
propagating. -/
theorem trend_aggregation_spec :
    (periodHours "1h" = 1 ∧ periodHours "24h" = 24 ∧
      periodHours "7d" = 168 ∧ periodHours "30d" = 720 ∧
      periodHours "all" = 8760) ∧
    (∀ (db : TrendDb) (period : String) (limit : Nat) (now : Int),
      (getProjectTrends db period limit now none).length ≤ limit ∧
      (getProjectTrends db period limit now none).Pairwise
        (fun a b => trendLEb a b = true) ∧
      (∀ r ∈ getProjectTrends db period limit now none,
        (0 < r.likes_change ∨ 0 < r.comments_change) ∧
        (∃ l e,
          latestRow (windowRows db
            (now - (periodHours period : Int) * (60 * 60 * 1000)) r.id) =
              some l ∧
          earliestRow (windowRows db
            (now - (periodHours period : Int) * (60 * 60 * 1000)) r.id) =
              some e ∧
          r.current_likes = l.likes ∧ r.current_comments = l.comments ∧
          r.start_likes = e.likes ∧ r.start_comments = e.comments ∧
          r.likes_change = l.likes - e.likes ∧
          r.comments_change = l.comments - e.comments ∧
          r.latest_time = l.recorded_at ∧ r.earliest_time = e.recorded_at ∧
          r.history = (windowRows db
            (now - (periodHours period : Int) * (60 * 60 * 1000))
            r.id).insertionSort (fun a b => histLEb a b)))) ∧
    (∀ (db : TrendDb) (period : String) (limit : Nat) (now : Int)
      (msg : String), getProjectTrends db period limit now (some msg) = []) := by
  refine ⟨⟨rfl, rfl, rfl, rfl, rfl⟩, ?_, fun db period limit now msg => rfl⟩
  intro db period limit now
  haveI instTot : IsTotal TrendRow (fun a b => trendLEb a b = true) :=
    ⟨trendLEb_total⟩
  haveI instTrans : IsTrans TrendRow (fun a b => trendLEb a b = true) :=
    ⟨trendLEb_trans⟩
  have hout : getProjectTrends db period limit now none =
      trendQuery db period limit now := rfl
  refine ⟨?_, ?_, ?_⟩
  · rw [hout]
    unfold trendQuery
    exact List.length_take_le _ _
  · rw [hout]
    unfold trendQuery
    exact ((List.sorted_insertionSort _ _).sublist (List.take_sublist _ _))
  · intro r hr
    rw [hout] at hr
    simp only [trendQuery] at hr
    have hr2 := List.mem_of_mem_take hr
    rw [List.mem_insertionSort] at hr2
    obtain ⟨p, hp, hfp⟩ := List.mem_filterMap.mp hr2
    cases hl : latestRow (windowRows db
        (now - (periodHours period : Int) * (60 * 60 * 1000)) p.id) with
    | none =>
      simp only [hl] at hfp
      exact Option.noConfusion hfp
    | some l =>
      cases he : earliestRow (windowRows db
          (now - (periodHours period : Int) * (60 * 60 * 1000)) p.id) with
      | none =>
        simp only [hl, he] at hfp
        exact Option.noConfusion hfp
      | some e =>
        simp only [hl, he] at hfp
        by_cases hpos : 0 < l.likes - e.likes ∨ 0 < l.comments - e.comments
        · rw [if_pos hpos] at hfp
          have hr3 := Option.some.inj hfp
          subst hr3
          exact ⟨hpos, l, e, hl, he, rfl, rfl, rfl, rfl, rfl, rfl, rfl, rfl,
            rfl⟩
        · rw [if_neg hpos] at hfp
          cases hfp

theorem trend_aggregation_spec_witness :
    ((getProjectTrends dbW "1h" 10 3600000 none).headI.likes_change > 0 ∨
      (getProjectTrends dbW "1h" 10 3600000 none).headI.comments_change
        > 0) ∧
    (∃ l e,
      latestRow (windowRows dbW
        (3600000 - (periodHours "1h" : Int) * (60 * 60 * 1000))
        (getProjectTrends dbW "1h" 10 3600000 none).headI.id) = some l ∧
      earliestRow (windowRows dbW
        (3600000 - (periodHours "1h" : Int) * (60 * 60 * 1000))
        (getProjectTrends dbW "1h" 10 3600000 none).headI.id) = some e ∧
      (getProjectTrends dbW "1h" 10 3600000 none).headI.current_likes =
        l.likes ∧
      (getProjectTrends dbW "1h" 10 3600000 none).headI.current_comments =
        l.comments ∧
      (getProjectTrends dbW "1h" 10 3600000 none).headI.start_likes =
        e.likes ∧
      (getProjectTrends dbW "1h" 10 3600000 none).headI.start_comments =
        e.comments ∧
      (getProjectTrends dbW "1h" 10 3600000 none).headI.likes_change =
        l.likes - e.likes ∧
      (getProjectTrends dbW "1h" 10 3600000 none).headI.comments_change =
        l.comments - e.comments ∧
      (getProjectTrends dbW "1h" 10 3600000 none).headI.latest_time =
        l.recorded_at ∧
      (getProjectTrends dbW "1h" 10 3600000 none).headI.earliest_time =
        e.recorded_at ∧
      (getProjectTrends dbW "1h" 10 3600000 none).headI.history =
        (windowRows dbW
          (3600000 - (periodHours "1h" : Int) * (60 * 60 * 1000))
          (getProjectTrends dbW "1h" 10 3600000 none).headI.id
            ).insertionSort (fun a b => histLEb a b)) :=
  (trend_aggregation_spec.2.1 dbW "1h" 10 3600000).2.2
    (getProjectTrends dbW "1h" 10 3600000 none).headI
    (by
      have : getProjectTrends dbW "1h" 10 3600000 none =
          [(getProjectTrends dbW "1h" 10 3600000 none).headI] := by rfl
      rw [this]
      exact List.mem_singleton.mpr rfl)

/-! ### Lemmas about the engine stages -/

theorem scorePassAux_fst (st : String) (qt : List String)
    (l : List IndexEntry) :
    ∀ m, (scorePassAux st qt l m).1 =
      l.filter (fun e => 0 < computeScore st qt e) := by
  induction l with
  | nil => intro m; rfl
  | cons e es ih =>
    intro m
    by_cases h : 0 < computeScore st qt e
    · simp only [scorePassAux, if_pos h, List.filter_cons,
        decide_eq_true h, ih]
      simp
    · simp only [scorePassAux, if_neg h, List.filter_cons,
        decide_eq_false h, ih]
      simp

theorem textStage_subset {f : FilterOptions} {l : List IndexEntry}
    {x : IndexEntry} (hx : x ∈ textStage f l) : x ∈ l := by
  simp only [textStage] at hx
  split at hx
  · rw [List.mem_insertionSort, scorePassAux_fst] at hx
    exact (List.mem_filter.mp hx).1
  · exact hx

theorem trackStage_sublist (f : FilterOptions) (l : List IndexEntry) :
    List.Sublist (trackStage f l) l := by
  unfold trackStage
  split
  · exact List.filter_sublist _
  · exact List.Sublist.refl _

theorem countryStage_sublist (f : FilterOptions) (l : List IndexEntry) :
    List.Sublist (countryStage f l) l := by
  unfold countryStage
  split
  · exact List.filter_sublist _
  · exact List.Sublist.refl _

theorem teamSizeStage_sublist (f : FilterOptions) (l : List IndexEntry) :
    List.Sublist (teamSizeStage f l) l := by
  unfold teamSizeStage
  split
  · exact List.filter_sublist _
  · exact List.Sublist.refl _

theorem likesStage_sublist (f : FilterOptions) (l : List IndexEntry) :
    List.Sublist (likesStage f l) l := by
  unfold likesStage
  split
  · exact List.filter_sublist _
  · exact List.Sublist.refl _

theorem filtersChain_sublist (f : FilterOptions) (l : List IndexEntry) :
    List.Sublist (filtersChain f l) l :=
  ((likesStage_sublist f _).trans
    ((teamSizeStage_sublist f _).trans
      ((countryStage_sublist f _).trans (trackStage_sublist f l))))

theorem mem_likesStage_bounds {f : FilterOptions} {l : List IndexEntry}
    {x : IndexEntry} (hg : 0 < f.likesRange.1 ∨ f.likesRange.2 < 100)
    (hx : x ∈ likesStage f l) :
    f.likesRange.1 ≤ jsOrZero x.project.likes ∧
      jsOrZero x.project.likes ≤ f.likesRange.2 := by
  unfold likesStage at hx
  rw [if_pos hg] at hx
  simpa using (List.mem_filter.mp hx).2

theorem mem_teamSizeStage_bounds {f : FilterOptions} {l : List IndexEntry}
    {x : IndexEntry} (hg : 1 < f.teamSizeRange.1 ∨ f.teamSizeRange.2 < 50)
    (hx : x ∈ teamSizeStage f l) :
    f.teamSizeRange.1 ≤ x.teamSize ∧ x.teamSize ≤ f.teamSizeRange.2 := by
  unfold teamSizeStage at hx
  rw [if_pos hg] at hx
  simpa using (List.mem_filter.mp hx).2

theorem mem_buildIndex_teamSize {projects : List Project} {x : IndexEntry}
    (hx : x ∈ buildIndex projects) : x.teamSize = jsTeamSize x.project := by
  unfold buildIndex at hx
  obtain ⟨p, hp, rfl⟩ := List.mem_map.mp hx
  rfl

theorem sortLEb_total (f : FilterOptions) (a b : IndexEntry) :
    sortLEb f a b = true ∨ sortLEb f b a = true := by
  unfold sortLEb
  split_ifs <;> simp only [decide_eq_true_eq] <;> exact le_total _ _

theorem sortLEb_trans (f : FilterOptions) (a b c : IndexEntry)
    (h1 : sortLEb f a b = true) (h2 : sortLEb f b c = true) :
    sortLEb f a c = true := by
  unfold sortLEb at h1 h2 ⊢
  split_ifs at h1 h2 ⊢ <;> simp only [decide_eq_true_eq] at h1 h2 ⊢ <;>
    exact le_trans h1 h2

theorem cmpLEb_total (f : FilterOptions) (a b : IndexEntry) :
    cmpLEb f a b = true ∨ cmpLEb f b a = true := by
  unfold cmpLEb
  split_ifs
  · exact sortLEb_total f a b
  · exact sortLEb_total f b a

theorem cmpLEb_trans (f : FilterOptions) (a b c : IndexEntry)
    (h1 : cmpLEb f a b = true) (h2 : cmpLEb f b c = true) :
    cmpLEb f a c = true := by
  unfold cmpLEb at h1 h2 ⊢
  split_ifs at h1 h2 ⊢
  · exact sortLEb_trans f a b c h1 h2
  · exact sortLEb_trans f c b a h2 h1

theorem cmpLEb_claimedOrder {f : FilterOptions} {a b : IndexEntry}
    (h : cmpLEb f a b = true) : claimedOrder f a.project b.project := by
  unfold cmpLEb sortLEb at h
  unfold claimedOrder dirLE dirLEs
  refine ⟨fun hc => ?_, fun hn => ?_, fun hco => ?_,
    fun hne1 hne2 hne3 => ?_⟩
  · by_cases ho : f.sortOrder = "asc" <;> simp [ho, hc] at h ⊢ <;> exact h
  · by_cases ho : f.sortOrder = "asc" <;> simp [ho, hn] at h ⊢ <;> exact h
  · by_cases ho : f.sortOrder = "asc" <;> simp [ho, hco] at h ⊢ <;> exact h
  · by_cases hl : f.sortBy = "likes" <;>
      by_cases ho : f.sortOrder = "asc" <;>
      simp [ho, hl, hne1, hne2, hne3] at h ⊢ <;> exact h

/-- C2 (amended): with no active text search the output of the engine is
sorted by the claimed ordering — likes/comments numerically, name/country
as strings, in `sortOrder` direction — where `sortBy = "teamSize"`
(although a member of the declared enum) and every value outside the enum
fall back to the likes comparison, because the comparator `switch` has no
`teamSize` case; with an active search (length ≥ 2), the relevance order
of the text stage is preserved: the remaining filters only select an
order-preserving subsequence and no re-sort by `sortBy` occurs. -/
theorem final_sort_spec (idx : List IndexEntry) (f : FilterOptions) :
    ((f.search = "" ∨ f.search.length < 2) →
      (computeResults idx f).Pairwise (claimedOrder f)) ∧
    ((f.search ≠ "" ∧ 2 ≤ f.search.length) →
      List.Sublist (filtersChain f (textStage f idx)) (textStage f idx) ∧
      computeResults idx f =
        (filtersChain f (textStage f idx)).map (fun e => e.project)) := by
  constructor
  · intro hin
    unfold computeResults finalSortStage
    rw [if_pos hin]
    haveI : IsTotal IndexEntry (fun a b => cmpLEb f a b = true) :=
      ⟨cmpLEb_total f⟩
    haveI : IsTrans IndexEntry (fun a b => cmpLEb f a b = true) :=
      ⟨cmpLEb_trans f⟩
    have hs := List.sorted_insertionSort (fun a b => cmpLEb f a b = true)
      (filtersChain f (textStage f idx))
    exact hs.map (fun e => e.project) (fun a b hab => cmpLEb_claimedOrder hab)
  · intro hact
    refine ⟨filtersChain_sublist f _, ?_⟩
    unfold computeResults finalSortStage
    rw [if_neg ?hcond]
    case hcond =>
      push_neg
      exact ⟨hact.1, by omega⟩

def fAct : FilterOptions := { defaultFilters with search := "ab" }

def idxW : List IndexEntry :=
  buildIndex [mkP 1 "A" "" (some 5) 3, mkP 2 "B" "" (some 10) 1]

theorem final_sort_spec_witness :
    (computeResults idxW defaultFilters).Pairwise
      (claimedOrder defaultFilters) ∧
    (List.Sublist (filtersChain fAct (textStage fAct idxW))
        (textStage fAct idxW) ∧
      computeResults idxW fAct =
        (filtersChain fAct (textStage fAct idxW)).map (fun e => e.project)) :=
  ⟨(final_sort_spec idxW defaultFilters).1 (Or.inl rfl),
    (final_sort_spec idxW fAct).2 ⟨by decide, by decide⟩⟩

/-- C2 counterexample: with `sortBy = "teamSize"`, `sortOrder = "asc"` and
no search, the output is ordered by likes (team sizes come out `[3, 1]`),
so it is not sorted by team size as the claim requires for every member
of the `sortBy` enum. -/
theorem final_sort_teamSize_counterexample :
    ¬ ((computeResults
        (buildIndex [mkP 1 "A" "" (some 5) 3, mkP 2 "B" "" (some 10) 1])
        { defaultFilters with sortBy := "teamSize", sortOrder := "asc" }
          ).Pairwise (fun a b => jsTeamSize a ≤ jsTeamSize b)) := by
  decide

/-- C5 (amended): the range bounds hold for every output record whenever
the corresponding filter is active, and the code activates a filter
exactly when its range moves strictly inside the default — `likesRange`
when `min > 0` or `max < 100`, `teamSizeRange` when `min > 1` or
`max < 50`.  A range at or beyond the defaults (not only one equal to
them) is skipped entirely, so no bound is guaranteed there. -/
theorem range_filters_spec (projects : List Project) (f : FilterOptions) :
    ((0 < f.likesRange.1 ∨ f.likesRange.2 < 100) →
      ∀ p ∈ computeResults (buildIndex projects) f,
        f.likesRange.1 ≤ jsOrZero p.likes ∧
          jsOrZero p.likes ≤ f.likesRange.2) ∧
    ((1 < f.teamSizeRange.1 ∨ f.teamSizeRange.2 < 50) →
      ∀ p ∈ computeResults (buildIndex projects) f,
        f.teamSizeRange.1 ≤ jsTeamSize p ∧
          jsTeamSize p ≤ f.teamSizeRange.2) := by
  have hmem : ∀ p ∈ computeResults (buildIndex projects) f,
      ∃ e, e ∈ filtersChain f (textStage f (buildIndex projects)) ∧
        e.project = p := by
    intro p hp
    unfold computeResults at hp
    obtain ⟨e, he, hep⟩ := List.mem_map.mp hp
    refine ⟨e, ?_, hep⟩
    unfold finalSortStage at he
    split at he
    · rwa [List.mem_insertionSort] at he
    · exact he
  constructor
  · intro hg p hp
    obtain ⟨e, he, rfl⟩ := hmem p hp
    exact mem_likesStage_bounds hg he
  · intro hg p hp
    obtain ⟨e, he, rfl⟩ := hmem p hp
    have he2 : e ∈ teamSizeStage f
        (countryStage f (trackStage f (textStage f (buildIndex projects)))) :=
      (likesStage_sublist f _).subset he
    have hb := mem_teamSizeStage_bounds hg he2
    have hidx : e ∈ buildIndex projects :=
      textStage_subset ((trackStage_sublist f _).subset
        ((countryStage_sublist f _).subset
          ((teamSizeStage_sublist f _).subset he2)))
    rwa [mem_buildIndex_teamSize hidx] at hb

def fActiveRanges : FilterOptions :=
  { defaultFilters with likesRange := (5, 50), teamSizeRange := (2, 10) }

def pRangesW : Project := mkP 9 "W" "" (some 10) 3

theorem range_filters_spec_witness :
    ((5 : Int) ≤ jsOrZero pRangesW.likes ∧
      jsOrZero pRangesW.likes ≤ (50 : Int)) ∧
    ((2 : Int) ≤ jsTeamSize pRangesW ∧ jsTeamSize pRangesW ≤ (10 : Int)) :=
  ⟨(range_filters_spec [pRangesW] fActiveRanges).1 (Or.inl (by decide))
      pRangesW
      (by
        rw [show computeResults (buildIndex [pRangesW]) fActiveRanges =
          [pRangesW] from rfl]
        exact List.mem_singleton.mpr rfl),
    (range_filters_spec [pRangesW] fActiveRanges).2 (Or.inl (by decide))
      pRangesW
      (by
        rw [show computeResults (buildIndex [pRangesW]) fActiveRanges =
          [pRangesW] from rfl]
        exact List.mem_singleton.mpr rfl)⟩

/-- C5 counterexample: with `likesRange = [0, 150]` the guard
`min > 0 || max < 100` is false, the likes filter is skipped, and a
project with 200 likes is returned although `200 ≤ 150` fails; likewise
`teamSizeRange = [1, 60]` is skipped and a 70-member project is returned
although `70 ≤ 60` fails.  This refutes the claim's quantification over
ranges at or beyond the defaults. -/
theorem range_filters_counterexample :
    (¬ ∀ p ∈ computeResults (buildIndex [mkP 1 "P" "" (some 200) 0])
        { defaultFilters with likesRange := (0, 150) },
        (0 : Int) ≤ jsOrZero p.likes ∧ jsOrZero p.likes ≤ 150) ∧
    (¬ ∀ p ∈ computeResults (buildIndex [mkP 3 "Q" "" (some 1) 70])
        { defaultFilters with teamSizeRange := (1, 60) },
        (1 : Int) ≤ jsTeamSize p ∧ jsTeamSize p ≤ 60) := by
  constructor <;> decide

/-! ### The scores map agrees with the per-entry score on duplicate-free ids -/

theorem mapGet0_mapSet_self (m : List (Int × Nat)) (k : Int) (v : Nat) :
    mapGet0 (mapSet m k v) k = v := by
  induction m with
  | nil => simp [mapSet, mapGet0]
  | cons p ps ih =>
    by_cases h : p.1 = k
    · simp [mapSet, mapGet0, h]
    · simp [mapSet, mapGet0, h, ih]

theorem mapGet0_mapSet_ne (m : List (Int × Nat)) (k k' : Int) (v : Nat)
    (hk : k' ≠ k) : mapGet0 (mapSet m k v) k' = mapGet0 m k' := by
  induction m with
  | nil => simp [mapSet, mapGet0, Ne.symm hk]
  | cons p ps ih =>
    by_cases h : p.1 = k
    · simp only [mapSet, if_pos h, mapGet0, if_neg (Ne.symm hk)]
      rw [if_neg (by rw [h]; exact Ne.symm hk)]
    · by_cases h2 : p.1 = k'
      · simp only [mapSet, if_neg h, mapGet0, if_pos h2]
      · simp only [mapSet, if_neg h, mapGet0, if_neg h2]
        exact ih

theorem scorePassAux_get_untouched (st : String) (qt : List String)
    (l : List IndexEntry) :
    ∀ (m : List (Int × Nat)) (k : Int), k ∉ l.map (fun e => e.id) →
      mapGet0 (scorePassAux st qt l m).2 k = mapGet0 m k := by
  induction l with
  | nil => intro m k _; rfl
  | cons e es ih =>
    intro m k hk
    simp only [List.map_cons, List.mem_cons, not_or] at hk
    by_cases h : 0 < computeScore st qt e
    · simp only [scorePassAux, if_pos h]
      rw [ih (mapSet m e.id (computeScore st qt e)) k hk.2]
      exact mapGet0_mapSet_ne m e.id k _ hk.1
    · simp only [scorePassAux, if_neg h]
      exact ih m k hk.2

theorem scorePassAux_get (st : String) (qt : List String)
    (l : List IndexEntry) :
    ∀ (m : List (Int × Nat)), (l.map (fun e => e.id)).Nodup →
      ∀ e ∈ l, 0 < computeScore st qt e →
        mapGet0 (scorePassAux st qt l m).2 e.id = computeScore st qt e := by
  induction l with
  | nil => intro m _ e he; cases he
  | cons e0 es ih =>
    intro m hnd e he hpos
    have hnd2 : e0.id ∉ es.map (fun e => e.id) ∧
        (es.map (fun e => e.id)).Nodup := by
      rw [List.map_cons, List.nodup_cons] at hnd
      exact hnd
    rcases List.mem_cons.mp he with rfl | hes
    · simp only [scorePassAux, if_pos hpos]
      rw [scorePassAux_get_untouched st qt es _ e.id hnd2.1]
      exact mapGet0_mapSet_self m e.id _
    · by_cases h0 : 0 < computeScore st qt e0
      · simp only [scorePassAux, if_pos h0]
        exact ih _ hnd2.2 e hes hpos
      · simp only [scorePassAux, if_neg h0]
        exact ih m hnd2.2 e hes hpos

/-- The per-entry relevance score of the active search
(`searchTerm = filters.search.toLowerCase()`). -/
def scoreOf (f : FilterOptions) (e : IndexEntry) : Nat :=
  computeScore (jsToLower f.search) (queryTermsOf (jsToLower f.search)) e

def nameMatch (f : FilterOptions) (e : IndexEntry) : Bool :=
  jsIncludes e.normalizedName (jsToLower f.search)

def descMatch (f : FilterOptions) (e : IndexEntry) : Bool :=
  jsIncludes e.normalizedDescription (jsToLower f.search)

/-- The C1 property of the text-search stage: it keeps exactly the
positively scored entries, orders them by score descending, keeps ties in
their prior relative order, and in particular every name-substring match
ranks before every description-only match. -/
def textSearchClaim (idx : List IndexEntry) (f : FilterOptions) : Prop :=
  (textStage f idx).Perm (idx.filter (fun e => 0 < scoreOf f e)) ∧
  (textStage f idx).Pairwise (fun a b => scoreOf f b ≤ scoreOf f a) ∧
  (∀ a b : IndexEntry,
    List.Sublist [a, b] (idx.filter (fun e => 0 < scoreOf f e)) →
    scoreOf f b ≤ scoreOf f a →
    List.Sublist [a, b] (textStage f idx)) ∧
  (∀ i j : Fin (textStage f idx).length,
    nameMatch f ((textStage f idx).get i) = true →
    nameMatch f ((textStage f idx).get j) = false →
    descMatch f ((textStage f idx).get j) = true →
    (i : Nat) < (j : Nat))

theorem computeScore_name (st : String) (qt : List String) (e : IndexEntry)
    (h : jsIncludes e.normalizedName st = true) :
    computeScore st qt e = 100 := by
  simp [computeScore, h]

theorem computeScore_desc (st : String) (qt : List String) (e : IndexEntry)
    (h1 : jsIncludes e.normalizedName st = false)
    (h2 : jsIncludes e.normalizedDescription st = true) :
    computeScore st qt e = 80 := by
  simp [computeScore, h1, h2]

/-- C1: for a search of length ≥ 2 over an index with duplicate-free ids
(the data model declares `id` unique), the text-search stage keeps exactly
the entries with a positive score (100 name substring / 80 description
substring / 30 first matching query term), sorts them by score descending
with ties keeping their prior relative order, and any name match ranks
strictly before any description-only match. -/
theorem text_search_scoring_spec (idx : List IndexEntry) (f : FilterOptions)
    (hlen : 2 ≤ f.search.length)
    (hids : (idx.map (fun e => e.id)).Nodup) :
    textSearchClaim idx f := by
  have hne : f.search ≠ "" := by
    intro h
    rw [h] at hlen
    exact absurd hlen (by decide)
  have hcond : f.search ≠ "" ∧ 2 ≤ f.search.length := ⟨hne, hlen⟩
  unfold textSearchClaim scoreOf nameMatch descMatch
  have htext : textStage f idx =
      (scorePassAux (jsToLower f.search) (queryTermsOf (jsToLower f.search))
        idx []).1.insertionSort
        (fun a b =>
          mapGet0 (scorePassAux (jsToLower f.search)
            (queryTermsOf (jsToLower f.search)) idx []).2 b.id ≤
          mapGet0 (scorePassAux (jsToLower f.search)
            (queryTermsOf (jsToLower f.search)) idx []).2 a.id) := by
    simp only [textStage, if_pos hcond]
  have hkept : (scorePassAux (jsToLower f.search)
      (queryTermsOf (jsToLower f.search)) idx []).1 =
      idx.filter (fun e => 0 < computeScore (jsToLower f.search)
        (queryTermsOf (jsToLower f.search)) e) :=
    scorePassAux_fst _ _ idx []
  set st := jsToLower f.search with hst
  set qt := queryTermsOf st with hqt
  set m := (scorePassAux st qt idx []).2 with hm2
  set kept := (scorePassAux st qt idx []).1 with hkdef
  have hagree : ∀ e ∈ idx.filter (fun e => 0 < computeScore st qt e),
      mapGet0 m e.id = computeScore st qt e := by
    intro e he
    have h2 := List.mem_filter.mp he
    exact scorePassAux_get st qt idx [] hids e h2.1 (by simpa using h2.2)
  haveI instTot :
      IsTotal IndexEntry (fun a b => mapGet0 m b.id ≤ mapGet0 m a.id) :=
    ⟨fun a b => Nat.le_total _ _⟩
  haveI instTr :
      IsTrans IndexEntry (fun a b => mapGet0 m b.id ≤ mapGet0 m a.id) :=
    ⟨fun a b c h1 h2 => le_trans h2 h1⟩
  have hpair : (textStage f idx).Pairwise
      (fun a b => computeScore st qt b ≤ computeScore st qt a) := by
    rw [htext]
    have hs := List.sorted_insertionSort
      (fun a b => mapGet0 m b.id ≤ mapGet0 m a.id) kept
    refine List.Pairwise.imp_of_mem ?_ hs
    intro a b ha hb hab
    rw [List.mem_insertionSort, hkept] at ha hb
    rw [← hagree a ha, ← hagree b hb]
    exact hab
  refine ⟨?_, hpair, ?_, ?_⟩
  · rw [htext, hkept]
    exact List.perm_insertionSort _ _
  · intro a b hsub hscore
    rw [htext]
    have ha : a ∈ idx.filter (fun e => 0 < computeScore st qt e) :=
      hsub.subset (by simp)
    have hb : b ∈ idx.filter (fun e => 0 < computeScore st qt e) :=
      hsub.subset (by simp)
    have hrab : mapGet0 m b.id ≤ mapGet0 m a.id := by
      rw [hagree a ha, hagree b hb]
      exact hscore
    refine List.pair_sublist_insertionSort hrab ?_
    rw [hkept]
    exact hsub
  · intro i j hni hnj hdj
    rcases Nat.lt_trichotomy (i : Nat) (j : Nat) with h | h | h
    · exact h
    · exfalso
      have hij : (textStage f idx).get i = (textStage f idx).get j := by
        congr 1
        exact Fin.ext h
      rw [hij, hnj] at hni
      cases hni
    · exfalso
      have hrel := (List.pairwise_iff_get.mp hpair) j i h
      rw [computeScore_name st qt _ hni,
        computeScore_desc st qt _ hnj hdj] at hrel
      omega

def fC1 : FilterOptions := { defaultFilters with search := "Hakata" }

def idxC1 : List IndexEntry :=
  buildIndex [mkP 1 "Hakata Finance" "perp dex" (some 42) 2,
    mkP 2 "Other" "Hakata integration" (some 10) 0]

theorem text_search_scoring_spec_witness : textSearchClaim idxC1 fC1 :=
  text_search_scoring_spec idxC1 fC1 (by decide) (by decide)


/-! ### Validator inversion lemmas -/

theorem sanitizeStringE_eq_none (v : JVal) :
    sanitizeStringE v = none ↔ (truthy v = true ∧ isStr v = false) := by
  cases v <;> simp [sanitizeStringE, truthy, isStr]
  case str s => by_cases h : s = "" <;> simp [h]

theorem validateTracks_nonarr (v : JVal) (h : isArr v = false) :
    validateTracks v = [] := by
  cases v <;> simp_all [validateTracks, isArr]

theorem validateTeamMembers_nonarr (pu : String → Option String) (v : JVal)
    (h : isArr v = false) : validateTeamMembers pu v = some [] := by
  cases v <;> simp_all [validateTeamMembers, isArr]

theorem validateTeamMembers_length (pu : String → Option String) (v : JVal)
    (l : List TeamMember) (h : validateTeamMembers pu v = some l) :
    l.length ≤ 20 := by
  cases v with
  | arr ms =>
    simp only [validateTeamMembers] at h
    rcases hm : (ms.filter (fun m => truthy m ∧ isObjectType m)).mapM
        (buildMember pu) with _ | mm <;> rw [hm] at h
    · simp at h
    · simp at h
      subst h
      simp
  | undefined =>
    simp only [validateTeamMembers, Option.some.injEq] at h
    subst h
    simp
  | null =>
    simp only [validateTeamMembers, Option.some.injEq] at h
    subst h
    simp
  | bool b =>
    simp only [validateTeamMembers, Option.some.injEq] at h
    subst h
    simp
  | num n =>
    simp only [validateTeamMembers, Option.some.injEq] at h
    subst h
    simp
  | str s =>
    simp only [validateTeamMembers, Option.some.injEq] at h
    subst h
    simp
  | obj fs =>
    simp only [validateTeamMembers, Option.some.injEq] at h
    subst h
    simp

theorem validateDate_default (pd : String → Option String) (now : String)
    (v : JVal)
    (h : truthy v = false ∨ isStr v = false ∨ pd (asStr v) = none) :
    validateDate pd now v = now := by
  unfold validateDate
  rcases h with h | h | h
  · rw [if_neg (by simp [h])]
  · rw [if_neg (by simp [h])]
  · split_ifs with hc
    · simp only [h]
    · rfl

theorem validateUrl_default (pu : String → Option String) (v : JVal)
    (h : truthy v = false ∨ isStr v = false ∨
      (∀ proto, pu (sanitizeCore (asStr v)) = some proto →
        proto ≠ "http:" ∧ proto ≠ "https:")) :
    validateUrl pu v = "" := by
  unfold validateUrl
  rcases h with h | h | h
  · rw [if_neg (by simp [h])]
  · rw [if_neg (by simp [h])]
  · split_ifs with hc
    · rcases hp : pu (sanitizeCore (asStr v)) with _ | proto <;>
        simp only [hp]
      have := h proto hp
      rw [if_neg (by tauto)]
    · rfl

theorem validateProject_some_fields (pd pu : String → Option String)
    (now : String) (data : JVal) (p : Project)
    (h : validateProject pd pu now data = some p) :
    p.tracks = validateTracks (getF data "tracks") ∧
    p.submittedAt = validateDate pd now (getF data "submittedAt") ∧
    p.repoLink = validateUrl pu (getF data "repoLink") ∧
    p.presentationLink = validateUrl pu (getF data "presentationLink") ∧
    p.technicalDemoLink = validateUrl pu (getF data "technicalDemoLink") ∧
    p.teamSize = (if truthy (getF data "teamMembers") = true then
      jsLen (getF data "teamMembers") else some 1) ∧
    (∃ tm, validateTeamMembers pu (getF data "teamMembers") = some tm ∧
      p.teamMembers = tm) := by
  unfold validateProject at h
  by_cases h1 : truthy data = true ∧ isObjectType data = true
  case neg => rw [if_neg h1] at h; exact Option.noConfusion h
  rw [if_pos h1] at h
  by_cases h2 : truthy (getF data "id") = true ∧ isNum (getF data "id") = true
  case neg => rw [if_neg h2] at h; exact Option.noConfusion h
  rw [if_pos h2] at h
  by_cases h3 : truthy (getF data "name") = true ∧
    isStr (getF data "name") = true
  case neg => rw [if_neg h3] at h; exact Option.noConfusion h
  rw [if_pos h3] at h
  rcases e1 : sanitizeStringE (getF data "name") with _ | nameV <;>
    rw [e1] at h
  · exact Option.noConfusion h
  simp only [Option.bind_eq_bind, Option.some_bind] at h
  rcases e2 : sanitizeStringE (getF data "slug") with _ | slugV <;>
    rw [e2] at h
  · exact Option.noConfusion h
  simp only [Option.bind_eq_bind, Option.some_bind] at h
  rcases e3 : sanitizeStringE (getF data "description") with _ | descV <;>
    rw [e3] at h
  · exact Option.noConfusion h
  simp only [Option.bind_eq_bind, Option.some_bind] at h
  rcases e4 : sanitizeStringE (getF data "country") with _ | countryV <;>
    rw [e4] at h
  · exact Option.noConfusion h
  simp only [Option.bind_eq_bind, Option.some_bind] at h
  rcases e5 : sanitizeStringE (getF data "additionalInfo") with _ | addV <;>
    rw [e5] at h
  · exact Option.noConfusion h
  simp only [Option.bind_eq_bind, Option.some_bind] at h
  rcases e6 : sanitizeStringE (getF data "universityName") with _ | uniV <;>
    rw [e6] at h
  · exact Option.noConfusion h
  simp only [Option.bind_eq_bind, Option.some_bind] at h
  rcases e7 : sanitizeStringE (getF data "randomOrder") with _ | roV <;>
    rw [e7] at h
  · exact Option.noConfusion h
  simp only [Option.bind_eq_bind, Option.some_bind] at h
  rcases e8 : validateTeamMembers pu (getF data "teamMembers") with _ | tmV <;>
    rw [e8] at h
  · exact Option.noConfusion h
  simp only [Option.bind_eq_bind, Option.some_bind] at h
  rcases e9 : validateImage pu (getF data "image") with _ | imgV <;>
    rw [e9] at h
  · exact Option.noConfusion h
  simp only [Option.bind_eq_bind, Option.some_bind] at h
  have hp := (Option.some.inj h).symm
  subst hp
  exact ⟨rfl, rfl, rfl, rfl, rfl, rfl, tmV, rfl, rfl⟩

theorem sanitizeStringE_not_none_of_some {v : JVal} {s : String}
    (h : sanitizeStringE v = some s) :
    ¬(truthy v = true ∧ isStr v = false) := by
  intro hb
  rw [(sanitizeStringE_eq_none v).mpr hb] at h
  exact Option.noConfusion h

theorem validateProject_eq_none_iff (pd pu : String → Option String)
    (now : String) (data : JVal) :
    validateProject pd pu now data = none ↔
      (¬(truthy data = true ∧ isObjectType data = true) ∨
        ¬(truthy (getF data "id") = true ∧ isNum (getF data "id") = true) ∨
        ¬(truthy (getF data "name") = true ∧
          isStr (getF data "name") = true) ∨
        (truthy (getF data "slug") = true ∧
          isStr (getF data "slug") = false) ∨
        (truthy (getF data "description") = true ∧
          isStr (getF data "description") = false) ∨
        (truthy (getF data "country") = true ∧
          isStr (getF data "country") = false) ∨
        (truthy (getF data "additionalInfo") = true ∧
          isStr (getF data "additionalInfo") = false) ∨
        (truthy (getF data "universityName") = true ∧
          isStr (getF data "universityName") = false) ∨
        (truthy (getF data "randomOrder") = true ∧
          isStr (getF data "randomOrder") = false) ∨
        validateTeamMembers pu (getF data "teamMembers") = none ∨
        validateImage pu (getF data "image") = none) := by
  unfold validateProject
  by_cases h1 : truthy data = true ∧ isObjectType data = true
  case neg => simp [if_neg h1, h1]
  rw [if_pos h1]
  by_cases h2 : truthy (getF data "id") = true ∧ isNum (getF data "id") = true
  case neg => simp [if_neg h2, h1, h2]
  rw [if_pos h2]
  by_cases h3 : truthy (getF data "name") = true ∧
    isStr (getF data "name") = true
  case neg => simp [if_neg h3, h1, h2, h3]
  rw [if_pos h3]
  rcases e1 : sanitizeStringE (getF data "name") with _ | nameV
  · exact absurd ((sanitizeStringE_eq_none _).mp e1).2 (by simp [h3.2])
  rcases e2 : sanitizeStringE (getF data "slug") with _ | slugV
  · have hb := (sanitizeStringE_eq_none _).mp e2
    simp [hb.1, hb.2]
  rcases e3 : sanitizeStringE (getF data "description") with _ | descV
  · have hb := (sanitizeStringE_eq_none _).mp e3
    simp [hb.1, hb.2]
  rcases e4 : sanitizeStringE (getF data "country") with _ | countryV
  · have hb := (sanitizeStringE_eq_none _).mp e4
    simp [hb.1, hb.2]
  rcases e5 : sanitizeStringE (getF data "additionalInfo") with _ | addV
  · have hb := (sanitizeStringE_eq_none _).mp e5
    simp [hb.1, hb.2]
  rcases e6 : sanitizeStringE (getF data "universityName") with _ | uniV
  · have hb := (sanitizeStringE_eq_none _).mp e6
    simp [hb.1, hb.2]
  rcases e7 : sanitizeStringE (getF data "randomOrder") with _ | roV
  · have hb := (sanitizeStringE_eq_none _).mp e7
    simp [hb.1, hb.2]
  rcases e8 : validateTeamMembers pu (getF data "teamMembers") with _ | tmV
  · simp
  rcases e9 : validateImage pu (getF data "image") with _ | imgV
  · simp
  have k2 := sanitizeStringE_not_none_of_some e2
  have k3 := sanitizeStringE_not_none_of_some e3
  have k4 := sanitizeStringE_not_none_of_some e4
  have k5 := sanitizeStringE_not_none_of_some e5
  have k6 := sanitizeStringE_not_none_of_some e6
  have k7 := sanitizeStringE_not_none_of_some e7
  simp [h1, h2, h3, k2, k3, k4, k5, k6, k7]

/-- C7 (amended): `validateProject` returns `null` exactly when the input
is not a truthy object, lacks a truthy numeric `id`, lacks a truthy string
`name`, or — because `sanitizeString` throws on truthy non-string input
and the surrounding `try/catch` converts the throw to `null` — when any of
`slug`/`description`/`country`/`additionalInfo`/`universityName`/
`randomOrder`, a kept team member's sanitized fields, or the image's
sanitized fields is a truthy non-string.  For the remaining malformed
fields safe defaults are substituted: unparsable or non-string dates
become `now`, non-array `tracks`/`teamMembers` become `[]`, and malformed
or non-http(s) URLs become `""`.  `validateProjects` is total, returns
`[]` on non-array input, and its output length never exceeds the input
length. -/
theorem validator_spec (pd pu : String → Option String) (now : String) :
    (∀ data : JVal, validateProject pd pu now data = none ↔
      (¬(truthy data = true ∧ isObjectType data = true) ∨
        ¬(truthy (getF data "id") = true ∧ isNum (getF data "id") = true) ∨
        ¬(truthy (getF data "name") = true ∧
          isStr (getF data "name") = true) ∨
        (truthy (getF data "slug") = true ∧
          isStr (getF data "slug") = false) ∨
        (truthy (getF data "description") = true ∧
          isStr (getF data "description") = false) ∨
        (truthy (getF data "country") = true ∧
          isStr (getF data "country") = false) ∨
        (truthy (getF data "additionalInfo") = true ∧
          isStr (getF data "additionalInfo") = false) ∨
        (truthy (getF data "universityName") = true ∧
          isStr (getF data "universityName") = false) ∨
        (truthy (getF data "randomOrder") = true ∧
          isStr (getF data "randomOrder") = false) ∨
        validateTeamMembers pu (getF data "teamMembers") = none ∨
        validateImage pu (getF data "image") = none)) ∧
    (∀ (data : JVal) (p : Project),
      validateProject pd pu now data = some p →
      ((isArr (getF data "tracks") = false → p.tracks = []) ∧
       (isArr (getF data "teamMembers") = false → p.teamMembers = []) ∧
       ((truthy (getF data "submittedAt") = false ∨
         isStr (getF data "submittedAt") = false ∨
         pd (asStr (getF data "submittedAt")) = none) →
         p.submittedAt = now) ∧
       ((truthy (getF data "repoLink") = false ∨
         isStr (getF data "repoLink") = false ∨
         (∀ proto,
           pu (sanitizeCore (asStr (getF data "repoLink"))) = some proto →
           proto ≠ "http:" ∧ proto ≠ "https:")) → p.repoLink = "") ∧
       ((truthy (getF data "presentationLink") = false ∨
         isStr (getF data "presentationLink") = false ∨
         (∀ proto,
           pu (sanitizeCore (asStr (getF data "presentationLink"))) =
             some proto → proto ≠ "http:" ∧ proto ≠ "https:")) →
         p.presentationLink = "") ∧
       ((truthy (getF data "technicalDemoLink") = false ∨
         isStr (getF data "technicalDemoLink") = false ∨
         (∀ proto,
           pu (sanitizeCore (asStr (getF data "technicalDemoLink"))) =
             some proto → proto ≠ "http:" ∧ proto ≠ "https:")) →
         p.technicalDemoLink = ""))) ∧
    (∀ items : List JVal,
      (validateProjects pd pu now (JVal.arr items)).length ≤ items.length) ∧
    (∀ v : JVal, isArr v = false → validateProjects pd pu now v = []) := by
  refine ⟨fun data => validateProject_eq_none_iff pd pu now data,
    ?_, ?_, ?_⟩
  · intro data p h
    obtain ⟨ht, hd, hr, hpre, htech, hts, tm, htm, htmm⟩ :=
      validateProject_some_fields pd pu now data p h
    refine ⟨?_, ?_, ?_, ?_, ?_, ?_⟩
    · intro ha
      rw [ht, validateTracks_nonarr _ ha]
    · intro ha
      have h0 := validateTeamMembers_nonarr pu _ ha
      rw [h0] at htm
      rw [htmm, (Option.some.inj htm).symm]
    · intro ha
      rw [hd]
      exact validateDate_default pd now _ ha
    · intro ha
      rw [hr]
      exact validateUrl_default pu _ ha
    · intro ha
      rw [hpre]
      exact validateUrl_default pu _ ha
    · intro ha
      rw [htech]
      exact validateUrl_default pu _ ha
  · intro items
    induction items with
    | nil => simp [validateProjects]
    | cons x xs ih =>
      simp only [validateProjects, List.foldr_cons] at ih ⊢
      cases validateProject pd pu now x <;> simp <;> omega
  · intro v hv
    cases v <;> simp_all [validateProjects, isArr]

def dataC7 : JVal :=
  JVal.obj [("id", JVal.num 1), ("name", JVal.str "ok"),
    ("description", JVal.num 7)]

/-- C7 counterexample: a record with a truthy numeric id, a non-empty
string name and a *numeric* description is rejected (`null`) — the
sanitizer throws on the truthy non-string and the `catch` returns `null` —
although the claim says such a record is accepted with the description
replaced by a safe default. -/
theorem validator_counterexample :
    validateProject pdNone puNone "NOW" dataC7 = none ∧
    truthy dataC7 = true ∧ isObjectType dataC7 = true ∧
    truthy (getF dataC7 "id") = true ∧ isNum (getF dataC7 "id") = true ∧
    truthy (getF dataC7 "name") = true ∧ isStr (getF dataC7 "name") = true :=
  ⟨rfl, rfl, rfl, rfl, rfl, rfl, rfl⟩

def dataW7 : JVal :=
  JVal.obj [("id", JVal.num 2), ("name", JVal.str "n")]

def pW7 : Project :=
  (validateProject pdNone puNone "T" dataW7).getD blankProject

theorem validator_spec_witness :
    pW7.tracks = [] ∧ pW7.teamMembers = [] ∧ pW7.submittedAt = "T" ∧
    pW7.repoLink = "" ∧
    (validateProjects pdNone puNone "T"
      (JVal.arr [dataW7, JVal.num 3])).length ≤ 2 ∧
    validateProjects pdNone puNone "T" (JVal.str "x") = [] :=
  ⟨((validator_spec pdNone puNone "T").2.1 dataW7 pW7 rfl).1 rfl,
    ((validator_spec pdNone puNone "T").2.1 dataW7 pW7 rfl).2.1 rfl,
    ((validator_spec pdNone puNone "T").2.1 dataW7 pW7 rfl).2.2.1
      (Or.inl rfl),
    ((validator_spec pdNone puNone "T").2.1 dataW7 pW7 rfl).2.2.2.1
      (Or.inl rfl),
    (validator_spec pdNone puNone "T").2.2.1 [dataW7, JVal.num 3],
    (validator_spec pdNone puNone "T").2.2.2 (JVal.str "x") rfl⟩

/-- C8 (amended): every accepted project has at most 20 validated team
members, but `teamSize` is computed from the *raw* `teamMembers` value —
its JS `.length` when truthy (an empty array counts as truthy and yields
0; entries dropped or sliced off by validation still count), and 1 only
when the raw value is falsy. -/
theorem teamSize_from_raw (pd pu : String → Option String) (now : String)
    (data : JVal) (p : Project)
    (h : validateProject pd pu now data = some p) :
    p.teamMembers.length ≤ 20 ∧
    p.teamSize = (if truthy (getF data "teamMembers") = true then
      jsLen (getF data "teamMembers") else some 1) := by
  obtain ⟨-, -, -, -, -, hts, tm, htm, htmm⟩ :=
    validateProject_some_fields pd pu now data p h
  refine ⟨?_, hts⟩
  rw [htmm]
  exact validateTeamMembers_length pu _ tm htm

def dataW8 : JVal :=
  JVal.obj [("id", JVal.num 1), ("name", JVal.str "a"),
    ("teamMembers", JVal.arr [JVal.obj []])]

def pW8 : Project :=
  (validateProject pdNone puNone "T" dataW8).getD blankProject

theorem teamSize_from_raw_witness :
    pW8.teamMembers.length ≤ 20 ∧
    pW8.teamSize = (if truthy (getF dataW8 "teamMembers") = true then
      jsLen (getF dataW8 "teamMembers") else some 1) :=
  teamSize_from_raw pdNone puNone "T" dataW8 pW8 rfl

def dataEmptyTM : JVal :=
  JVal.obj [("id", JVal.num 1), ("name", JVal.str "a"),
    ("teamMembers", JVal.arr [])]

def data21TM : JVal :=
  JVal.obj [("id", JVal.num 1), ("name", JVal.str "a"),
    ("teamMembers", JVal.arr (List.replicate 21 (JVal.obj [])))]

/-- C8 counterexample: an empty raw `teamMembers` array is truthy in JS,
so `teamSize` becomes 0 (the claim demands 1); and 21 raw member objects
give `teamSize = 21` while the validated `teamMembers` array is sliced to
20 — `teamSize` is taken from the raw upstream array, not recomputed from
the validated one. -/
theorem teamSize_counterexample :
    (¬ ∀ (data : JVal) (p : Project),
        validateProject pdNone puNone "T" data = some p →
        p.teamSize = some (if p.teamMembers.length = 0 then 1
          else p.teamMembers.length)) ∧
    (validateProject pdNone puNone "T" dataEmptyTM).map
      (fun p => (p.teamSize, p.teamMembers.length)) = some (some 0, 0) ∧
    (validateProject pdNone puNone "T" data21TM).map
      (fun p => (p.teamSize, p.teamMembers.length)) = some (some 21, 20) := by
  refine ⟨?_, rfl, rfl⟩
  intro hall
  have h := hall dataEmptyTM
    ((validateProject pdNone puNone "T" dataEmptyTM).getD blankProject) rfl
  exact absurd h (by decide)
